import Mathlib

/-!
Shallow embedding of the SGX derivatives downloader core (`downloader.py`):
the identifier index (`_update_db`), the date/range resolver
(`_get_valid_dates`, `_get_ids_from_dates`, `_get_id_from_date`,
`_is_valid_range`, `_is_weekend`, `_is_future`), the batch retrieval driver
(`_get_file_by_id`, `_get_files_by_id`, `_get_files_by_ids`,
`get_range_files`) and the failure ledger / retry pass
(`retry_download_errors`).

Calendar dates are represented by their day ordinal (days since 1970-01-01,
an `Int`); `daysFromCivil` converts a civil `y-m-d` date to that ordinal.
External effects (network probes, artifact transfers) are passed in as
explicit outcome functions; file reads/writes and probe counts are made
explicit in the result types so that "no I/O" properties are statable.
-/

namespace SGX

/-- One row of the persisted identifier index (`database` CSV):
columns `date_id` and `date` (stored here as a day ordinal). -/
structure IndexEntry where
  dateId : Int
  date : Int
deriving DecidableEq, Repr

/-- One line of the failure ledger (the `failed` logger's file):
`date_id,request_file,kind,detail`. -/
structure FailureRecord where
  dateId : Int
  requestFile : String
  kind : String
  detail : String
deriving DecidableEq, Repr

/-- Outcome of one artifact transfer attempt as observed by
`_get_file_by_id`: `_download_file` either returns a saved filename,
returns `None` (missing content disposition), or raises one of the five
caught exception types. -/
inductive FetchOutcome where
  | success (filename : String)
  | noDisposition
  | httpError (reason : String)
  | fileNotFound (strerror : String)
  | contentTooShort (reason : String)
  | urlError (reason : String)
  | osError (strerror : String)
deriving DecidableEq, Repr

/-- Model of `_get_file_by_id` (downloader.py:92-130): returns the final `success`
flag together with the lines appended to the `failed` logger. `success`
is initialised to `True`; the `HTTPError`, `FileNotFoundError`,
`ContentTooShortError` and `URLError` handlers reset it to `False`, while
the `OSError` handler only logs and leaves `success` at `True`. -/
def getFileById (requestFile : String) (dateId : Int) (outcome : FetchOutcome) :
    Bool × List FailureRecord :=
  match outcome with
  | .success _ => (true, [])
  | .noDisposition => (false, [])
  | .httpError r => (false, [⟨dateId, requestFile, "HTTPError", r⟩])
  | .fileNotFound s => (false, [⟨dateId, requestFile, "FileNotFoundError", s⟩])
  | .contentTooShort r => (false, [⟨dateId, requestFile, "ContentTooShortError", r⟩])
  | .urlError r => (false, [⟨dateId, requestFile, "URLError", r⟩])
  | .osError s => (true, [⟨dateId, requestFile, "OSError", s⟩])

/-- Model of `_get_files_by_id` (downloader.py:264-292): maps `_get_file_by_id` over
the requested artifact names (the pool's `starmap` preserves list order)
and returns `len(states) - sum(states)`. -/
def getFilesById (requestFiles : List String) (dateId : Int)
    (fetch : String → Int → FetchOutcome) : Nat :=
  let states := requestFiles.map fun f => (getFileById f dateId (fetch f dateId)).1
  states.length - states.count true

/-- Model of `_get_files_by_ids` (downloader.py:295-303): accumulates error counts
over the identifiers, starting from 0. -/
def getFilesByIds (requestFiles : List String) (dateIds : List Int)
    (fetch : String → Int → FetchOutcome) : Nat :=
  dateIds.foldl (fun acc i => acc + getFilesById requestFiles i fetch) 0

/-- Day ordinal of a civil date (days since 1970-01-01), the standard
days-from-civil computation; used to model `datetime` values. -/
def daysFromCivil (y m d : Int) : Int :=
  let yy := if m ≤ 2 then y - 1 else y
  let era := (if 0 ≤ yy then yy else yy - 399) / 400
  let yoe := yy - era * 400
  let mp := (m + 9) % 12
  let doy := (153 * mp + 2) / 5 + d - 1
  let doe := yoe * 365 + yoe / 4 - yoe / 100 + doy
  era * 146097 + doe - 719468

/-- Python's `datetime.weekday()` (Monday = 0) on a day ordinal;
1970-01-01 was a Thursday (weekday 3). -/
def pyWeekday (d : Int) : Int :=
  (d + 3) % 7

/-- Model of `_is_weekend` (downloader.py:180-184): `date.weekday() in [5, 6]`. -/
def isWeekend (d : Int) : Bool :=
  pyWeekday d == 5 || pyWeekday d == 6

/-- Model of `_is_future` (downloader.py:214-218): `date > current_date`. -/
def isFuture (d currentDate : Int) : Bool :=
  d > currentDate

/-- Model of `_is_valid_range` (downloader.py:173-177): false when
`start_date > end_date`. -/
def isValidRange (startDate endDate : Int) : Bool :=
  if startDate > endDate then false else true

/-- Loop body of `_get_valid_dates`: steps one day at a time from the
current date, keeping days that are neither weekend nor future; the fuel
is the number of remaining days. -/
def getValidDatesGo (latest : Int) : Nat → Int → List Int
  | 0, _ => []
  | n + 1, d =>
    if !isWeekend d && !isFuture d latest then d :: getValidDatesGo latest n (d + 1)
    else getValidDatesGo latest n (d + 1)

/-- Model of `_get_valid_dates` (downloader.py:149-158): enumerates
`[start_date, end_date]` one day at a time. -/
def getValidDates (latest startDate endDate : Int) : List Int :=
  getValidDatesGo latest (endDate + 1 - startDate).toNat startDate

/-- Model of `_get_ids_from_dates` (downloader.py:161-164):
`index_table[index_table["date"].isin(dates)]["date_id"]` — filter the
index rows whose date is in the list, project the `date_id` column. -/
def getIdsFromDates (db : List IndexEntry) (dates : List Int) : List Int :=
  (db.filter fun e => dates.contains e.date).map fun e => e.dateId

/-- Model of `_get_id_from_date` (downloader.py:71-73):
`index_table[index_table["date"] == date]["date_id"].values[0]` — on an
empty selection the `[0]` subscript raises `IndexError`. -/
def getIdFromDate (db : List IndexEntry) (date : Int) : Except String Int :=
  match (db.filter fun e => e.date == date).map fun e => e.dateId with
  | [] => .error "IndexError"
  | x :: _ => .ok x

/-- Result of one identifier probe (`_get_date_from_id`,
downloader.py:54-68): a date extracted from the content disposition,
`None` when the header is absent, or a raised `HTTPError` / `URLError`. -/
inductive ProbeResult where
  | found (date : Int)
  | absent
  | httpError (reason : String)
  | urlError (reason : String)
deriving DecidableEq, Repr

/-- The probe loop of `_update_db` (downloader.py:246-255) over the fuel
many identifiers starting at `dateId`: a `found` date appends an entry,
`absent` appends nothing, `HTTPError` is caught, logged and skipped, and
`URLError` is not caught — it propagates and aborts the loop. -/
def updateLoop (probe : Int → ProbeResult) : Int → Nat → Except String (List IndexEntry)
  | _, 0 => .ok []
  | dateId, n + 1 =>
    match probe dateId with
    | .found d => (updateLoop probe (dateId + 1) n).map fun l => ⟨dateId, d⟩ :: l
    | .absent => updateLoop probe (dateId + 1) n
    | .httpError _ => updateLoop probe (dateId + 1) n
    | .urlError r => .error ("URLError: " ++ r)

/-- Model of `db["date_id"].max()` — `none` models pandas' `NaN` on an empty
column (every comparison with `NaN` is false). -/
def maxId : List IndexEntry → Option Int
  | [] => none
  | e :: es =>
    match maxId es with
    | none => some e.dateId
    | some m => some (max e.dateId m)

/-- Model of `db["date"].max()` — `none` models pandas' `NaN` on an empty column. -/
def maxDate : List IndexEntry → Option Int
  | [] => none
  | e :: es =>
    match maxDate es with
    | none => some e.date
    | some m => some (max e.date m)

/-- Observable result of one `_update_db` call: the in-memory index it
returns (and persists when `wrote` is true), the number of network probes
performed, and whether `to_csv` was executed. -/
structure UpdateResult where
  db : List IndexEntry
  probes : Nat
  wrote : Bool
deriving DecidableEq, Repr

/-- Model of `_update_db` (downloader.py:231-261): early-returns (no probe, no
write) when the index's maximum **date** equals `LASTEST_DATE`; otherwise
probes identifiers from the maximum identifier plus one up to
`LASTEST_ID` (zero probes when the column is empty, since every `NaN`
comparison is false), appends the discovered entries and rewrites the CSV.
An uncaught probe exception (`URLError`) propagates before the write. -/
def updateDb (probe : Int → ProbeResult) (db : List IndexEntry)
    (latestId latestDate : Int) : Except String UpdateResult :=
  if maxDate db = some latestDate then .ok ⟨db, 0, false⟩
  else
    match maxId db with
    | none => .ok ⟨db, 0, true⟩
    | some m =>
      (updateLoop probe (m + 1) (latestId - m).toNat).map
        fun appends => ⟨db ++ appends, (latestId - m).toNat, true⟩

/-- The persisted index after a finite sequence of `_update_db` calls,
each with its own probe behaviour and `LASTEST_ID` / `LASTEST_DATE`; a
call that raises leaves the persisted file unchanged (the exception
propagates before `to_csv`). -/
def applyUpdates : List ((Int → ProbeResult) × Int × Int) → List IndexEntry → List IndexEntry
  | [], db => db
  | (probe, lid, ld) :: rest, db =>
    match updateDb probe db lid ld with
    | .ok r => applyUpdates rest r.db
    | .error _ => applyUpdates rest db

/-- Model of `get_range_files` (downloader.py:351-377) on already-parsed dates
(`_check_valid_date` results): returns the number of index-file reads
performed and, when the guards pass, the error count of the batch. The
index is read exactly once, inside `_update_db`, reached via
`_get_files_by_dates → _get_ids_from_dates`. -/
def getRangeFiles (probe : Int → ProbeResult) (db : List IndexEntry)
    (latestId latestDate : Int) (requestFiles : List String)
    (fetch : String → Int → FetchOutcome)
    (fromDate toDate : Option Int) : Nat × Option Nat :=
  match fromDate, toDate with
  | some f, some t =>
    if isValidRange f t then
      match updateDb probe db latestId latestDate with
      | .error _ => (1, none)
      | .ok r =>
        (1, some (getFilesByIds requestFiles
              (getIdsFromDates r.db (getValidDates latestDate f t)) fetch))
    else (0, none)
  | _, _ => (0, none)

/-- Appending one line to the failure ledger: the `failed` logger's
`FileHandler` is opened in append mode, so `record` always appends. -/
def recordFailure (ledger : List FailureRecord) (r : FailureRecord) : List FailureRecord :=
  ledger ++ [r]

/-- pandas `DataFrame.drop_duplicates()` with default arguments: keeps the
first occurrence of each fully identical row, preserving order; rows
differing in any column both survive. -/
def dropDuplicates (rows : List FailureRecord) : List FailureRecord :=
  rows.foldl (fun acc r => if acc.contains r then acc else acc ++ [r]) []

/-- The row-removal key used at downloader.py:407:
`(errors[0] == date_id) & (errors[1] == request_file)`. -/
def keyMatches (dateId : Int) (requestFile : String) (x : FailureRecord) : Bool :=
  x.dateId == dateId && x.requestFile == requestFile

/-- Model of `retry_download_errors` (downloader.py:380-409). The ledger file is
`none` when missing (then `os.stat` raises `FileNotFoundError`), otherwise
the list of its lines. Returns the ledger written back, the number of
lines read and the number of fetches performed. A zero-byte file
short-circuits before any read or fetch. Otherwise the deduplicated rows
are iterated from a snapshot (the `iterrows()` iterator is created before
`errors` is rebound), each row is fetched once, and rows whose fetch
succeeded are filtered out of the frame that is finally written back. -/
def retryDownloadErrors (ledgerFile : Option (List FailureRecord))
    (fetch : Int → String → Bool) : Except String (List FailureRecord × Nat × Nat) :=
  match ledgerFile with
  | none => .error "FileNotFoundError"
  | some rows =>
    if rows.length == 0 then .ok (rows, 0, 0)
    else
      .ok ((dropDuplicates rows).foldl
            (fun acc r =>
              if fetch r.dateId r.requestFile then
                acc.filter fun x => !keyMatches r.dateId r.requestFile x
              else acc)
            (dropDuplicates rows),
           rows.length, (dropDuplicates rows).length)

/-- Concrete probe behaviour used to exercise `updateDb`: one HTTP
failure, one missing content disposition, all other identifiers found. -/
def probeHttpSkip : Int → ProbeResult := fun i =>
  if i = 5492 then .httpError "500"
  else if i = 5493 then .absent
  else .found (i + 1)

/-- The identifiers probed by one `_update_db` loop: `fuel` consecutive
integers starting at `s`. -/
def idRange (s : Int) : Nat → List Int
  | 0 => []
  | n + 1 => s :: idRange (s + 1) n

/-- The index entry contributed by probing identifier `i`, if any:
only a `found` probe appends an entry. -/
def probeEntry (probe : Int → ProbeResult) (i : Int) : Option IndexEntry :=
  match probe i with
  | .found d => some ⟨i, d⟩
  | _ => none

theorem mem_idRange : ∀ (n : Nat) (s i : Int), i ∈ idRange s n ↔ s ≤ i ∧ i < s + n := by
  intro n
  induction n with
  | zero => intro s i; simp [idRange]
  | succ n ih =>
    intro s i
    simp only [idRange, List.mem_cons, ih (s + 1) i]
    omega

theorem probeEntry_eq_some {probe : Int → ProbeResult} {i : Int} {e : IndexEntry}
    (h : probeEntry probe i = some e) : e.dateId = i ∧ probe i = .found e.date := by
  unfold probeEntry at h
  cases hp : probe i <;> rw [hp] at h
  case found d =>
    simp only [Option.some.injEq] at h
    subst h
    exact ⟨rfl, rfl⟩
  all_goals simp at h

theorem mem_filterMap_probeEntry {probe : Int → ProbeResult} {s : Int} {n : Nat}
    {e : IndexEntry} (h : e ∈ (idRange s n).filterMap (probeEntry probe)) :
    s ≤ e.dateId ∧ e.dateId < s + n ∧ probe e.dateId = .found e.date := by
  rcases List.mem_filterMap.mp h with ⟨i, hi, hpe⟩
  rcases probeEntry_eq_some hpe with ⟨hid, hfound⟩
  rcases (mem_idRange n s i).mp hi with ⟨h1, h2⟩
  subst hid
  exact ⟨h1, h2, hfound⟩

theorem found_mem_filterMap_probeEntry {probe : Int → ProbeResult} {s i d : Int} {n : Nat}
    (hlo : s ≤ i) (hhi : i < s + n) (hp : probe i = .found d) :
    (⟨i, d⟩ : IndexEntry) ∈ (idRange s n).filterMap (probeEntry probe) := by
  refine List.mem_filterMap.mpr ⟨i, (mem_idRange n s i).mpr ⟨hlo, hhi⟩, ?_⟩
  unfold probeEntry
  rw [hp]

theorem updateLoop_char (probe : Int → ProbeResult) :
    ∀ (n : Nat) (s : Int),
      (∀ i, s ≤ i → i < s + n → ∀ r, probe i ≠ .urlError r) →
      updateLoop probe s n = .ok ((idRange s n).filterMap (probeEntry probe)) := by
  intro n
  induction n with
  | zero => intro s _; rfl
  | succ n ih =>
    intro s h
    have hstep : ∀ i, s + 1 ≤ i → i < s + 1 + n → ∀ r, probe i ≠ .urlError r := by
      intro i h1 h2 r
      exact h i (by omega) (by omega) r
    have hrec := ih (s + 1) hstep
    unfold updateLoop
    cases hp : probe s with
    | found d =>
      rw [hrec]
      simp [idRange, List.filterMap_cons, probeEntry, hp, Except.map]
    | absent =>
      rw [hrec]
      simp [idRange, List.filterMap_cons, probeEntry, hp]
    | httpError r =>
      rw [hrec]
      simp [idRange, List.filterMap_cons, probeEntry, hp]
    | urlError r =>
      exact absurd hp (h s (by omega) (by omega) r)

theorem updateLoop_ok_no_urlError {probe : Int → ProbeResult} :
    ∀ {n : Nat} {s : Int} {l : List IndexEntry},
      updateLoop probe s n = .ok l →
      ∀ i, s ≤ i → i < s + n → ∀ r, probe i ≠ .urlError r := by
  intro n
  induction n with
  | zero => intro s l _ i h1 h2; omega
  | succ n ih =>
    intro s l h i h1 h2 r
    unfold updateLoop at h
    cases hp : probe s <;> rw [hp] at h
    case urlError r2 => simp [Except.map] at h
    case found d =>
      cases hrec : updateLoop probe (s + 1) n with
      | error msg => rw [hrec] at h; simp [Except.map] at h
      | ok l2 =>
        rcases eq_or_lt_of_le h1 with heq | hlt
        · subst heq; rw [hp]; intro hcontra; cases hcontra
        · exact ih hrec i (by omega) (by omega) r
    case absent =>
      rcases eq_or_lt_of_le h1 with heq | hlt
      · subst heq; rw [hp]; intro hcontra; cases hcontra
      · exact ih h i (by omega) (by omega) r
    case httpError r2 =>
      rcases eq_or_lt_of_le h1 with heq | hlt
      · subst heq; rw [hp]; intro hcontra; cases hcontra
      · exact ih h i (by omega) (by omega) r

theorem pairwise_filterMap_probeEntry (probe : Int → ProbeResult) :
    ∀ (n : Nat) (s : Int),
      ((idRange s n).filterMap (probeEntry probe)).Pairwise
        (fun a b => a.dateId < b.dateId) := by
  intro n
  induction n with
  | zero => intro s; simp [idRange]
  | succ n ih =>
    intro s
    simp only [idRange, List.filterMap_cons]
    cases hpe : probeEntry probe s with
    | none => exact ih (s + 1)
    | some e =>
      rcases probeEntry_eq_some hpe with ⟨hid, _⟩
      refine List.Pairwise.cons ?_ (ih (s + 1))
      intro b hb
      rcases mem_filterMap_probeEntry hb with ⟨h1, _, _⟩
      omega

theorem maxId_eq_none {l : List IndexEntry} : maxId l = none ↔ l = [] := by
  cases l with
  | nil => simp [maxId]
  | cons e es =>
    simp only [maxId]
    cases maxId es <;> simp

theorem maxId_le {l : List IndexEntry} {m : Int} (h : maxId l = some m) :
    ∀ e ∈ l, e.dateId ≤ m := by
  induction l generalizing m with
  | nil => simp
  | cons e es ih =>
    intro x hx
    simp only [maxId] at h
    cases hes : maxId es with
    | none =>
      rw [hes] at h
      have : es = [] := maxId_eq_none.mp hes
      subst this
      simp at hx
      subst hx
      simp at h
      omega
    | some m2 =>
      rw [hes] at h
      simp at h
      rcases List.mem_cons.mp hx with hx | hx
      · subst hx; omega
      · have := ih hes x hx; omega

theorem maxId_mem {l : List IndexEntry} {m : Int} (h : maxId l = some m) :
    ∃ e ∈ l, e.dateId = m := by
  induction l generalizing m with
  | nil => simp [maxId] at h
  | cons e es ih =>
    simp only [maxId] at h
    cases hes : maxId es with
    | none =>
      rw [hes] at h
      simp at h
      exact ⟨e, List.mem_cons_self e es, h⟩
    | some m2 =>
      rw [hes] at h
      simp at h
      rcases max_cases e.dateId m2 with ⟨hmax, _⟩ | ⟨hmax, _⟩
      · exact ⟨e, List.mem_cons_self e es, by omega⟩
      · rcases ih hes with ⟨x, hx, hxm⟩
        exact ⟨x, List.mem_cons_of_mem e hx, by omega⟩

theorem maxId_isSome_of_ne_nil {l : List IndexEntry} (h : l ≠ []) :
    ∃ m, maxId l = some m := by
  cases hm : maxId l with
  | none => exact absurd (maxId_eq_none.mp hm) h
  | some m => exact ⟨m, rfl⟩

theorem updateDb_cases {probe : Int → ProbeResult} {db : List IndexEntry} {lid ld : Int}
    {r : UpdateResult} (h : updateDb probe db lid ld = .ok r) :
    (maxDate db = some ld ∧ r = ⟨db, 0, false⟩) ∨
    (¬maxDate db = some ld ∧ maxId db = none ∧ r = ⟨db, 0, true⟩) ∨
    (∃ m, ¬maxDate db = some ld ∧ maxId db = some m ∧
      updateLoop probe (m + 1) (lid - m).toNat =
        .ok ((idRange (m + 1) (lid - m).toNat).filterMap (probeEntry probe)) ∧
      r = ⟨db ++ (idRange (m + 1) (lid - m).toNat).filterMap (probeEntry probe),
           (lid - m).toNat, true⟩) := by
  unfold updateDb at h
  by_cases hd : maxDate db = some ld
  · rw [if_pos hd] at h
    simp only [Except.ok.injEq] at h
    exact Or.inl ⟨hd, h.symm⟩
  · rw [if_neg hd] at h
    cases hm : maxId db with
    | none =>
      simp only [hm] at h
      simp only [Except.ok.injEq] at h
      exact Or.inr (Or.inl ⟨hd, rfl, h.symm⟩)
    | some m =>
      simp only [hm] at h
      cases hl : updateLoop probe (m + 1) (lid - m).toNat with
      | error msg => rw [hl] at h; simp [Except.map] at h
      | ok l =>
        rw [hl] at h
        simp only [Except.map, Except.ok.injEq] at h
        have hnou := updateLoop_ok_no_urlError hl
        have hchar := updateLoop_char probe (lid - m).toNat (m + 1) hnou
        rw [hl] at hchar
        simp only [Except.ok.injEq] at hchar
        subst hchar
        exact Or.inr (Or.inr ⟨m, hd, rfl, hl, h.symm⟩)

theorem maxId_append_facts {db A : List IndexEntry} {m : Int}
    (hdb : maxId db = some m) (hA : ∀ e ∈ A, m + 1 ≤ e.dateId) (hne : A ≠ []) :
    ∃ M, maxId (db ++ A) = some M ∧ (∃ e ∈ A, e.dateId = M) ∧
      (∀ e ∈ db ++ A, e.dateId ≤ M) ∧ m < M := by
  have hne2 : db ++ A ≠ [] := by
    intro hcontra
    exact hne (List.append_eq_nil.mp hcontra).2
  rcases maxId_isSome_of_ne_nil hne2 with ⟨M, hM⟩
  have hub := maxId_le hM
  rcases maxId_mem hM with ⟨e0, he0, he0M⟩
  rcases List.exists_mem_of_ne_nil A hne with ⟨a, ha⟩
  have haub : a.dateId ≤ M := hub a (List.mem_append_right db ha)
  have halb : m + 1 ≤ a.dateId := hA a ha
  rcases List.mem_append.mp he0 with he0db | he0A
  · have : e0.dateId ≤ m := maxId_le hdb e0 he0db
    omega
  · exact ⟨M, hM, ⟨e0, he0A, he0M⟩, hub, by omega⟩

theorem updateDb_step_sorted {probe : Int → ProbeResult} {db : List IndexEntry}
    {lid ld : Int} {r : UpdateResult} (h : updateDb probe db lid ld = .ok r)
    (hp : db.Pairwise (fun a b => a.dateId < b.dateId)) :
    r.db.Pairwise (fun a b => a.dateId < b.dateId) ∧ ∃ suffix, r.db = db ++ suffix := by
  rcases updateDb_cases h with ⟨_, hr⟩ | ⟨_, _, hr⟩ | ⟨m, _, hm, _, hr⟩
  · subst hr; exact ⟨hp, [], (List.append_nil db).symm⟩
  · subst hr; exact ⟨hp, [], (List.append_nil db).symm⟩
  · subst hr
    refine ⟨?_, _, rfl⟩
    refine List.pairwise_append.mpr ⟨hp, pairwise_filterMap_probeEntry probe _ _, ?_⟩
    intro a ha b hb
    have h1 := maxId_le hm a ha
    have h2 := (mem_filterMap_probeEntry hb).1
    omega

/-- C9: starting from a persisted index strictly sorted by identifier with
no duplicates, the index read back after any finite sequence of
`_update_db` calls is still strictly sorted by identifier (hence
duplicate-free), and the original entries survive as an unshortened,
unreordered prefix — extension only ever appends. -/
theorem applyUpdates_preserves_sorted :
    ∀ (calls : List ((Int → ProbeResult) × Int × Int)) (db : List IndexEntry),
      db.Pairwise (fun a b => a.dateId < b.dateId) →
      (applyUpdates calls db).Pairwise (fun a b => a.dateId < b.dateId) ∧
      ∃ suffix, applyUpdates calls db = db ++ suffix := by
  intro calls
  induction calls with
  | nil => intro db hp; exact ⟨hp, [], (List.append_nil db).symm⟩
  | cons c rest ih =>
    intro db hp
    rcases c with ⟨probe, lid, ld⟩
    cases hu : updateDb probe db lid ld with
    | error msg =>
      simp only [applyUpdates, hu]
      exact ih db hp
    | ok r =>
      rcases updateDb_step_sorted hu hp with ⟨hp2, A, hA⟩
      rcases ih r.db hp2 with ⟨hp3, s, hs⟩
      simp only [applyUpdates, hu]
      exact ⟨hp3, A ++ s, by rw [hs, hA, List.append_assoc]⟩

theorem applyUpdates_preserves_sorted_witness :
    ([⟨1, 10⟩, ⟨2, 11⟩] : List IndexEntry).Pairwise (fun a b => a.dateId < b.dateId) ∧
    ((applyUpdates [(fun i => .found (i + 9), 4, 99)]
        [⟨1, 10⟩, ⟨2, 11⟩]).Pairwise (fun a b => a.dateId < b.dateId) ∧
      ∃ suffix, applyUpdates [(fun i => .found (i + 9), 4, 99)] [⟨1, 10⟩, ⟨2, 11⟩] =
        [⟨1, 10⟩, ⟨2, 11⟩] ++ suffix) :=
  ⟨by decide,
   applyUpdates_preserves_sorted [(fun i => .found (i + 9), 4, 99)]
     [⟨1, 10⟩, ⟨2, 11⟩] (by decide)⟩

/-- C4 counterexample: an index whose maximum identifier already equals
the target but whose maximum date is behind the run's latest date makes
`_update_db` perform zero probes yet still rewrite the index file
(`wrote = true`) — the early-return guard compares dates, not
identifiers, so "no writes" fails. -/
theorem updateDb_write_despite_target_le_max :
    maxId [⟨5495, daysFromCivil 2023 8 28⟩] = some 5495 ∧
    updateDb (fun i => .found i) [⟨5495, daysFromCivil 2023 8 28⟩] 5495
        (daysFromCivil 2023 8 29) =
      .ok ⟨[⟨5495, daysFromCivil 2023 8 28⟩], 0, true⟩ :=
  ⟨rfl, rfl⟩

/-- C4 amended: when the index's maximum identifier is at least the
target, `_update_db` performs no network probes and leaves the index
content unchanged (though the guard that also skips the file write
compares dates, not identifiers); and running `_update_db` twice with the
same target and probe behaviour yields the same index content as running
it once — no duplicate entries, no reordering. -/
theorem updateDb_noop_and_idempotent :
    (∀ (probe : Int → ProbeResult) (db : List IndexEntry) (lid ld m : Int),
        maxId db = some m → lid ≤ m →
        ∃ r, updateDb probe db lid ld = .ok r ∧ r.probes = 0 ∧ r.db = db) ∧
    (∀ (probe : Int → ProbeResult) (db : List IndexEntry) (lid ld : Int) (r : UpdateResult),
        updateDb probe db lid ld = .ok r →
        ∃ r2, updateDb probe r.db lid ld = .ok r2 ∧ r2.db = r.db) := by
  constructor
  · intro probe db lid ld m hm hle
    by_cases hd : maxDate db = some ld
    · exact ⟨⟨db, 0, false⟩, by unfold updateDb; rw [if_pos hd], rfl, rfl⟩
    · have hfuel : (lid - m).toNat = 0 := by omega
      refine ⟨⟨db, 0, true⟩, ?_, rfl, rfl⟩
      unfold updateDb
      rw [if_neg hd]
      simp only [hm, hfuel, updateLoop, Except.map, List.append_nil]
  · intro probe db lid ld r h
    rcases updateDb_cases h with ⟨hd, hr⟩ | ⟨hd, hm, hr⟩ | ⟨m, hd, hm, hl, hr⟩
    · subst hr
      exact ⟨⟨db, 0, false⟩, by unfold updateDb; rw [if_pos hd], rfl⟩
    · subst hr
      refine ⟨⟨db, 0, true⟩, ?_, rfl⟩
      unfold updateDb
      rw [if_neg hd]
      simp only [hm]
    · subst hr
      by_cases hA : (idRange (m + 1) (lid - m).toNat).filterMap (probeEntry probe) = []
      · refine ⟨⟨db ++ (idRange (m + 1) (lid - m).toNat).filterMap (probeEntry probe),
                 (lid - m).toNat, true⟩, ?_, rfl⟩
        show updateDb probe
            (db ++ (idRange (m + 1) (lid - m).toNat).filterMap (probeEntry probe)) lid ld = _
        rw [hA, List.append_nil] at h ⊢
        exact h
      · have hAmem : ∀ e ∈ (idRange (m + 1) (lid - m).toNat).filterMap (probeEntry probe),
            m + 1 ≤ e.dateId := fun e he => (mem_filterMap_probeEntry he).1
        rcases maxId_append_facts hm hAmem hA with ⟨M, hM, ⟨e0, he0, he0M⟩, hub, hmM⟩
        by_cases hd2 : maxDate
            (db ++ (idRange (m + 1) (lid - m).toNat).filterMap (probeEntry probe)) = some ld
        · exact ⟨⟨db ++ (idRange (m + 1) (lid - m).toNat).filterMap (probeEntry probe),
                  0, false⟩, by unfold updateDb; rw [if_pos hd2], rfl⟩
        · have hno := updateLoop_ok_no_urlError hl
          have hno2 : ∀ i, M + 1 ≤ i → i < M + 1 + (lid - M).toNat →
              ∀ s, probe i ≠ .urlError s := by
            intro i h1 h2 s
            have hMlid : M ≤ lid := by
              rcases mem_filterMap_probeEntry he0 with ⟨hlo, hhi, _⟩
              omega
            exact hno i (by omega) (by omega) s
          have hchar2 := updateLoop_char probe (lid - M).toNat (M + 1) hno2
          have hA2 : (idRange (M + 1) (lid - M).toNat).filterMap (probeEntry probe) = [] := by
            rw [List.filterMap_eq_nil_iff]
            intro i hi
            cases hpe : probeEntry probe i with
            | none => rfl
            | some e =>
              exfalso
              rcases probeEntry_eq_some hpe with ⟨hid, hf⟩
              rcases (mem_idRange _ _ _).mp hi with ⟨h1, h2⟩
              subst hid
              have hMlid : M ≤ lid := by
                rcases mem_filterMap_probeEntry he0 with ⟨hlo, hhi, _⟩
                omega
              have he : e ∈ (idRange (m + 1) (lid - m).toNat).filterMap (probeEntry probe) :=
                found_mem_filterMap_probeEntry (by omega) (by omega) hf
              have := hub e (List.mem_append_right db he)
              omega
          refine ⟨⟨(db ++ (idRange (m + 1) (lid - m).toNat).filterMap (probeEntry probe)) ++ [],
                   (lid - M).toNat, true⟩, ?_, by simp⟩
          unfold updateDb
          rw [if_neg hd2]
          simp only [hM]
          rw [hchar2, hA2]
          simp [Except.map]

theorem updateDb_noop_and_idempotent_witness :
    (∃ r, updateDb (fun _ => .absent) [⟨5495, 19597⟩] 5495 19598 = .ok r ∧
      r.probes = 0 ∧ r.db = [⟨5495, 19597⟩]) ∧
    (∃ r2, updateDb (fun _ => .absent) [⟨5495, 19597⟩] 3 19598 = .ok r2 ∧
      r2.db = [⟨5495, 19597⟩]) :=
  ⟨updateDb_noop_and_idempotent.1 (fun _ => .absent) [⟨5495, 19597⟩] 5495 19598 5495
      (by decide) (by decide),
   updateDb_noop_and_idempotent.2 (fun _ => .absent) [⟨5495, 19597⟩] 3 19598
      ⟨[⟨5495, 19597⟩], 0, true⟩ rfl⟩

/-- C5 counterexample: a `URLError`-style transport failure during one
probe is not caught by `_update_db`'s loop (only `HTTPError` is), so the
whole extension aborts instead of skipping that identifier and
continuing. -/
theorem updateDb_urlError_aborts :
    updateDb (fun i => if i = 5493 then .urlError "connection refused" else .found i)
      [⟨5490, 100⟩] 5495 200 = .error "URLError: connection refused" := rfl

/-- C5 amended: probe failures of HTTP kind (and absent content
dispositions) are contained — the identifier is skipped, stays absent
from the index (only `found` probes contribute entries), and the loop
runs on to the target — but this holds only when no probe in the range
raises a `URLError`, which `_update_db` does not catch. -/
theorem updateDb_contains_http_failures :
    ∀ (probe : Int → ProbeResult) (db : List IndexEntry) (lid ld m : Int),
      maxId db = some m → ¬maxDate db = some ld →
      (∀ i s, m < i → i ≤ lid → probe i ≠ .urlError s) →
      updateDb probe db lid ld =
        .ok ⟨db ++ (idRange (m + 1) (lid - m).toNat).filterMap (probeEntry probe),
             (lid - m).toNat, true⟩ ∧
      ∀ e ∈ (idRange (m + 1) (lid - m).toNat).filterMap (probeEntry probe),
        probe e.dateId = .found e.date := by
  intro probe db lid ld m hm hd hnou
  have hno : ∀ i, m + 1 ≤ i → i < m + 1 + (lid - m).toNat →
      ∀ s, probe i ≠ .urlError s := by
    intro i h1 h2 s
    exact hnou i s (by omega) (by omega)
  constructor
  · unfold updateDb
    rw [if_neg hd]
    simp only [hm]
    rw [updateLoop_char probe _ _ hno]
    simp [Except.map]
  · intro e he
    exact (mem_filterMap_probeEntry he).2.2

theorem updateDb_contains_http_failures_witness :
    (updateDb probeHttpSkip [⟨5491, 7⟩] 5494 9 =
      .ok ⟨[⟨5491, 7⟩] ++
             (idRange (5491 + 1) ((5494 : Int) - 5491).toNat).filterMap
               (probeEntry probeHttpSkip),
           ((5494 : Int) - 5491).toNat, true⟩ ∧
     ∀ e ∈ (idRange (5491 + 1) ((5494 : Int) - 5491).toNat).filterMap
         (probeEntry probeHttpSkip),
       probeHttpSkip e.dateId = .found e.date) :=
  updateDb_contains_http_failures probeHttpSkip [⟨5491, 7⟩] 5494 9 5491
    (by decide) (by decide)
    (by
      intro i s h1 h2
      unfold probeHttpSkip
      split
      · simp
      · split <;> simp)

theorem getValidDatesGo_eq_filter (latest : Int) :
    ∀ (n : Nat) (s : Int),
      getValidDatesGo latest n s =
        (idRange s n).filter fun d => !isWeekend d && !isFuture d latest := by
  intro n
  induction n with
  | zero => intro s; rfl
  | succ n ih =>
    intro s
    simp only [getValidDatesGo, idRange, List.filter_cons]
    by_cases hc : (!isWeekend s && !isFuture s latest) = true
    · rw [if_pos hc, if_pos hc, ih]
    · rw [if_neg hc, if_neg hc, ih]

/-- C6: `_get_valid_dates` keeps exactly the days of the closed interval
`[start_date, end_date]` that are neither a weekend day nor strictly
after the run's latest date; `_get_ids_from_dates` maps the survivors to
identifiers through the index, silently dropping dates with no index
entry; and the 2023-08-12 .. 2023-08-21 range contains neither 2023-08-12
(a Saturday) nor 2023-08-13 (a Sunday). -/
theorem rangeResolution_spec :
    (∀ latest s e d, d ∈ getValidDates latest s e ↔
        s ≤ d ∧ d ≤ e ∧ isWeekend d = false ∧ isFuture d latest = false) ∧
    (∀ (db : List IndexEntry) (dates : List Int) (i : Int),
        i ∈ getIdsFromDates db dates ↔
          ∃ en, en ∈ db ∧ en.dateId = i ∧ en.date ∈ dates) ∧
    daysFromCivil 2023 8 12 ∉
      getValidDates (daysFromCivil 2023 8 29) (daysFromCivil 2023 8 12)
        (daysFromCivil 2023 8 21) ∧
    daysFromCivil 2023 8 13 ∉
      getValidDates (daysFromCivil 2023 8 29) (daysFromCivil 2023 8 12)
        (daysFromCivil 2023 8 21) := by
  refine ⟨?_, ?_, by decide, by decide⟩
  · intro latest s e d
    unfold getValidDates
    rw [getValidDatesGo_eq_filter]
    simp only [List.mem_filter, mem_idRange, Bool.and_eq_true, Bool.not_eq_true']
    constructor
    · rintro ⟨⟨h1, h2⟩, h3, h4⟩
      exact ⟨h1, by omega, h3, h4⟩
    · rintro ⟨h1, h2, h3, h4⟩
      exact ⟨⟨h1, by omega⟩, h3, h4⟩
  · intro db dates i
    unfold getIdsFromDates
    simp only [List.mem_map, List.mem_filter]
    constructor
    · rintro ⟨en, ⟨hmem, hcont⟩, rfl⟩
      exact ⟨en, hmem, rfl, by simpa using hcont⟩
    · rintro ⟨en, hmem, rfl, hdate⟩
      exact ⟨en, ⟨hmem, by simpa using hdate⟩, rfl⟩

theorem rangeResolution_spec_witness :
    (19583 : Int) ∈ getValidDates (daysFromCivil 2023 8 29) (daysFromCivil 2023 8 12)
      (daysFromCivil 2023 8 21) :=
  (rangeResolution_spec.1 (daysFromCivil 2023 8 29) (daysFromCivil 2023 8 12)
    (daysFromCivil 2023 8 21) 19583).mpr (by decide)

theorem foldl_filter_eq (p : FailureRecord → FailureRecord → Bool) :
    ∀ (l acc : List FailureRecord),
      l.foldl (fun a r => a.filter (p r)) acc =
        acc.filter fun x => l.all fun r => p r x := by
  intro l
  induction l with
  | nil => intro acc; simp
  | cons r rest ih =>
    intro acc
    simp only [List.foldl_cons, ih, List.all_cons, List.filter_filter, Bool.and_comm]

/-- C7: with a fetch function that succeeds on every WorkItem,
`retry_download_errors` removes every live record and writes back an
empty ledger (remaining-failure count 0); a zero-byte ledger
short-circuits with no record reads and no fetches (the two counters are
`rows.length` lines read and one fetch per deduplicated record, both 0
on the short-circuit path). -/
theorem retryDownloadErrors_all_success :
    (∀ (fetch : Int → String → Bool) (rows : List FailureRecord),
      (∀ i f, fetch i f = true) →
      retryDownloadErrors (some rows) fetch =
        .ok ([], rows.length, (dropDuplicates rows).length)) ∧
    (∀ fetch : Int → String → Bool,
      retryDownloadErrors (some []) fetch = .ok ([], 0, 0)) := by
  refine ⟨?_, fun fetch => rfl⟩
  intro fetch rows hfetch
  by_cases hrows : rows = []
  · subst hrows; rfl
  · have hz : ¬(rows.length == 0) = true := by
      simp only [beq_iff_eq, List.length_eq_zero]
      exact hrows
    have hstep : (fun (acc : List FailureRecord) (r : FailureRecord) =>
        if fetch r.dateId r.requestFile then
          acc.filter fun x => !keyMatches r.dateId r.requestFile x
        else acc) =
        fun acc r => acc.filter fun x => !keyMatches r.dateId r.requestFile x := by
      funext acc r
      rw [hfetch r.dateId r.requestFile]
      simp
    simp only [retryDownloadErrors, if_neg hz, hstep]
    rw [foldl_filter_eq fun r x => !keyMatches r.dateId r.requestFile x]
    have hnil : (dropDuplicates rows).filter
        (fun x => (dropDuplicates rows).all fun r => !keyMatches r.dateId r.requestFile x) =
        [] := by
      rw [List.filter_eq_nil_iff]
      intro x hx hall
      have h2 := List.all_eq_true.mp hall x hx
      simp [keyMatches] at h2
    rw [hnil]

theorem retryDownloadErrors_all_success_witness :
    retryDownloadErrors (some [⟨5495, "TC.txt", "HTTPError", "x"⟩]) (fun _ _ => true) =
      .ok ([], 1, 1) :=
  retryDownloadErrors_all_success.1 (fun _ _ => true)
    [⟨5495, "TC.txt", "HTTPError", "x"⟩] (fun _ _ => rfl)

/-- C8: when both date strings parse but the start date is strictly after
the end date, `get_range_files` returns through the `_is_valid_range`
guard before any index read: zero reads of the index file, no extension,
no fetches, no batch result. -/
theorem getRangeFiles_invalid_range :
    ∀ (probe : Int → ProbeResult) (db : List IndexEntry) (latestId latestDate : Int)
      (requestFiles : List String) (fetch : String → Int → FetchOutcome) (f t : Int),
      t < f →
      getRangeFiles probe db latestId latestDate requestFiles fetch (some f) (some t) =
        (0, none) := by
  intro probe db lid ld files fetch f t h
  have hv : isValidRange f t = false := by
    unfold isValidRange
    rw [if_pos (by omega)]
  simp only [getRangeFiles, hv]
  simp

theorem getRangeFiles_invalid_range_witness :
    getRangeFiles (fun i => .found i) [] 5495 19598 ["a"] (fun _ _ => .noDisposition)
      (some (daysFromCivil 2023 9 1)) (some (daysFromCivil 2023 8 1)) = (0, none) :=
  getRangeFiles_invalid_range (fun i => .found i) [] 5495 19598 ["a"]
    (fun _ _ => .noDisposition) (daysFromCivil 2023 9 1) (daysFromCivil 2023 8 1)
    (by decide)

/-- C1: at a WorkItem whose fetch raises `OSError`, `_get_file_by_id`
appends a failure record to the ledger yet still returns
`success = True` — its `OSError` handler, unlike the other four, never
resets the flag — so a batch of one identifier × one artifact whose only
fetch fails with `OSError` reports 0 failures although 1 WorkItem did
not end in success. -/
theorem getFilesByIds_osError_uncounted :
    getFilesByIds ["WEBPXTICK_DT.zip"] [5495] (fun _ _ => .osError "Permission denied") = 0 ∧
    (getFileById "WEBPXTICK_DT.zip" 5495 (.osError "Permission denied")).1 = true ∧
    (getFileById "WEBPXTICK_DT.zip" 5495 (.osError "Permission denied")).2 =
      [⟨5495, "WEBPXTICK_DT.zip", "OSError", "Permission denied"⟩] :=
  ⟨rfl, rfl, rfl⟩

/-- C2: looking up a date with no entry in the identifier index raises
`IndexError` (the `.values[0]` subscript on an empty selection) instead
of returning the absent marker `None`; the caller's `date_id is None`
branch is unreachable for missing dates. -/
theorem getIdFromDate_missing_raises :
    getIdFromDate [⟨5495, daysFromCivil 2023 8 29⟩] (daysFromCivil 2023 8 16) =
      .error "IndexError" := rfl

/-- C3 counterexample: recording two failures for `(5495, "TC.txt")` with
different details leaves two live records for that key in the ledger the
retry pass loads — `drop_duplicates` removes only fully identical rows,
so the later detail does not overwrite the earlier record. -/
theorem ledger_two_details_two_live_records :
    (dropDuplicates (recordFailure (recordFailure [] ⟨5495, "TC.txt", "HTTPError", "d1"⟩)
        ⟨5495, "TC.txt", "HTTPError", "d2"⟩)).countP (keyMatches 5495 "TC.txt") = 2 := rfl

theorem dedupFold_mem :
    ∀ (l acc : List FailureRecord) (x : FailureRecord),
      x ∈ l.foldl (fun a r => if a.contains r then a else a ++ [r]) acc ↔
        x ∈ acc ∨ x ∈ l := by
  intro l
  induction l with
  | nil => intro acc x; simp
  | cons r rest ih =>
    intro acc x
    simp only [List.foldl_cons]
    by_cases hc : acc.contains r
    · rw [if_pos hc, ih]
      have hr : r ∈ acc := by simpa using hc
      simp only [List.mem_cons]
      constructor
      · rintro (h | h)
        · exact Or.inl h
        · exact Or.inr (Or.inr h)
      · rintro (h | rfl | h)
        · exact Or.inl h
        · exact Or.inl hr
        · exact Or.inr h
    · rw [if_neg hc, ih]
      simp only [List.mem_append, List.mem_singleton, List.mem_cons]
      tauto

theorem dedupFold_nodup :
    ∀ (l acc : List FailureRecord), acc.Nodup →
      (l.foldl (fun a r => if a.contains r then a else a ++ [r]) acc).Nodup := by
  intro l
  induction l with
  | nil => intro acc h; simpa using h
  | cons r rest ih =>
    intro acc h
    simp only [List.foldl_cons]
    by_cases hc : acc.contains r
    · rw [if_pos hc]
      exact ih acc h
    · rw [if_neg hc]
      refine ih (acc ++ [r]) ?_
      have hr : r ∉ acc := by simpa using hc
      simp only [List.nodup_append, List.nodup_cons, List.not_mem_nil, not_false_iff,
        List.nodup_nil, and_true, true_and]
      refine ⟨h, ?_⟩
      intro a ha hb
      rw [List.mem_singleton] at hb
      subst hb
      exact hr ha

/-- C3 amended: the ledger deduplicates only fully identical records —
the loaded ledger never contains two equal live records, and its live set
is exactly the set of recorded lines; hence two records that share the
`(identifier, artifact_name)` key but differ in detail both stay live. -/
theorem dropDuplicates_nodup_and_mem :
    ∀ rows : List FailureRecord,
      (dropDuplicates rows).Nodup ∧ ∀ x, x ∈ dropDuplicates rows ↔ x ∈ rows := by
  intro rows
  refine ⟨dedupFold_nodup rows [] List.nodup_nil, fun x => ?_⟩
  unfold dropDuplicates
  rw [dedupFold_mem]
  simp

/-- C10: a missing ledger file makes `retry_download_errors` raise the
file-system error from its initial `os.stat` size check — before any
record is read or any fetch attempted; only an existing zero-byte file
takes the documented no-op path. -/
theorem retryDownloadErrors_missing_file_raises :
    ∀ fetch : Int → String → Bool,
      retryDownloadErrors none fetch = .error "FileNotFoundError" := fun _ => rfl

end SGX
